import Mathlib

/-
Shallow embedding of the fc ("FlagConf") configuration-resolution library
(github.com/flowchartsman/fc): plainconf.go (PlainSource, EnvSource, ParseArgs),
jsonconf.go (older JSONSource revision) and the revised jsonconf
(JSONSource with the missing-key check plus JSONFlagSource).

Go strings are modelled as Lean `String`; where Go uses byte indices the
operations involved act only on ASCII characters, so character-level
operations coincide. Machine-level concerns (file handles, os.LookupEnv)
are modelled by passing the backing data explicitly: a plain/JSON source is
represented by its parsed in-memory map, the environment by a function
`String → Option String`.
-/

set_option maxRecDepth 10000

/-- GetOutcome models the result of `Source.Get` in Go: a `([]string, error)`
pair whose error is compared against the sentinel `ErrMissing`. `missing`
is `(nil, ErrMissing)`, `found vs` is `(vs, nil)`, `err m` is any other
error with message `m`. -/
inductive GetOutcome where
  | missing : GetOutcome
  | found : List String → GetOutcome
  | err : String → GetOutcome
deriving DecidableEq, Repr

/-- SourceImpl is a Source as used by the resolution sweep: its `Get`
function and its `Loc` diagnostic string. (`Name` is only used by the
usage printer and by flag-driven initialization, which track it
separately.) -/
structure SourceImpl where
  get : String → GetOutcome
  loc : String → String

/-- Src is a source as supplied to ParseArgs: either an ordinary Source, or
a FlagSource carrying its `Name()`, its `FlagNeeded()` string and its
`WithFlagValue` initializer, which on success yields the initialized
source used for the sweep. -/
inductive Src where
  | ordinary : SourceImpl → Src
  | flagDriven : String → String → (String → Except String SourceImpl) → Src

/-- FlagDecl models one flag registered in the flag.FlagSet: its name, its
`DefValue`, and its setter `fs.Set` modelled by `setE` (`none` = success,
`some msg` = the setter error message). -/
structure FlagDecl where
  fname : String
  defValue : String
  setE : String → Option String

/-- Ev is one observable call ParseArgs makes during resolution: a
`Get` on the source at a given index in the supplied source list, or a
`fs.Set` of a (whitespace-trimmed) value on a flag. -/
inductive Ev where
  | get (idx : Nat) (flag : String)
  | set (flag : String) (value : String)
deriving DecidableEq, Repr

/-- quoteStr models Go's `%q` verb for the plain identifier strings that
appear in fc's error messages (none of which need escaping). -/
def quoteStr (s : String) : String := "\"" ++ s ++ "\""

/-- lookupAssoc is Go map lookup `m[k]` over an association list. -/
def lookupAssoc {α : Type} : List (String × α) → String → Option α
  | [], _ => none
  | (k', v) :: rest, k => if k' = k then some v else lookupAssoc rest k

/-- insertAssoc is Go map assignment `m[k] = v` over an association list. -/
def insertAssoc {α : Type} : List (String × α) → String → α → List (String × α)
  | [], k, v => [(k, v)]
  | (k', v') :: rest, k, v =>
    if k' = k then (k, v) :: rest else (k', v') :: insertAssoc rest k v

/-- isGoSpace captures the ASCII cases of Go's `unicode.IsSpace` (space,
tab, newline, vertical tab, form feed, carriage return); fc's formats only
involve ASCII input. -/
def isGoSpace (c : Char) : Bool :=
  c = ' ' || c = '\t' || c = '\n' || c = Char.ofNat 11 || c = Char.ofNat 12 || c = '\r'

/-- trimChars is Go's `strings.TrimSpace` on a character list. -/
def trimChars (cs : List Char) : List Char :=
  (((cs.dropWhile isGoSpace).reverse).dropWhile isGoSpace).reverse

/-- trimStr is Go's `strings.TrimSpace`. -/
def trimStr (s : String) : String := String.mk (trimChars s.data)

/-- breakAtSpace models `strings.IndexRune(line, ' ')` followed by the
`line[:index]` / `line[index:]` split: `none` when there is no space, else
the part before the first space and the part from the space on. -/
def breakAtSpace : List Char → Option (List Char × List Char)
  | [] => none
  | c :: cs =>
    if c = ' ' then some ([], c :: cs)
    else
      match breakAtSpace cs with
      | none => none
      | some (a, b) => some (c :: a, b)

/-- cutSpaceHash models `strings.Index(value, " #")`: `some p` gives the
part of the list before the first occurrence of the two-character
sequence space-hash (Go's `value[:i]`), `none` when absent. -/
def cutSpaceHash : List Char → Option (List Char)
  | [] => none
  | ' ' :: '#' :: _ => some []
  | c :: cs =>
    match cutSpaceHash cs with
    | none => none
    | some p => some (c :: p)

/-- splitComma is Go's `strings.Split(s, ",")` on a character list. -/
def splitComma : List Char → List (List Char)
  | [] => [[]]
  | c :: cs =>
    if c = ',' then [] :: splitComma cs
    else
      match splitComma cs with
      | [] => [[c]]
      | a :: rest => (c :: a) :: rest

/-- parsePlainLine is the per-line body of `PlainSource.init` in
plainconf.go: trim the line; skip it when empty or starting with `#`;
split at the first space character into name and value (no space means the
name alone with value `"true"`); cut an inline ` #` comment from the
value; split the value on commas. `none` means the line contributes no
entry. -/
def parsePlainLine (raw : String) : Option (String × List String) :=
  match trimChars raw.data with
  | [] => none
  | '#' :: _ => none
  | c :: cs =>
    let p :=
      match breakAtSpace (c :: cs) with
      | none => (c :: cs, "true".data)
      | some (a, b) => (a, trimChars b)
    let value :=
      match cutSpaceHash p.2 with
      | some q => trimChars q
      | none => p.2
    some (String.mk p.1, (splitComma value).map String.mk)

/-- plainInit is `PlainSource.init`: fold the file's lines into the
key-to-values map, later lines overwriting earlier ones. -/
def plainInit (lines : List String) : List (String × List String) :=
  lines.foldl
    (fun m line =>
      match parsePlainLine line with
      | none => m
      | some kv => insertAssoc m kv.1 kv.2)
    []

/-- plainGet is `PlainSource.Get` after initialization: an absent key
yields the ErrMissing sentinel. -/
def plainGet (m : List (String × List String)) (key : String) : GetOutcome :=
  match lookupAssoc m key with
  | none => GetOutcome.missing
  | some vs => GetOutcome.found vs

/-- fileLoc is `PlainSource.Loc` / `JSONSource.Loc`: `"%s, key %q"`. -/
def fileLoc (filename key : String) : String :=
  filename ++ ", key " ++ quoteStr key

/-- upChar is ASCII `unicode.ToUpper` (fc's keys and prefixes are ASCII). -/
def upChar (c : Char) : Char :=
  if 'a' ≤ c ∧ c ≤ 'z' then Char.ofNat (c.toNat - 32) else c

/-- upperStr is `strings.ToUpper` on ASCII strings. -/
def upperStr (s : String) : String := String.mk (s.data.map upChar)

/-- envReplChar is one step of plainconf.go's `envVarReplacer`
(`strings.NewReplacer("-", "_", ".", "_", "/", "_")`). -/
def envReplChar (c : Char) : Char :=
  if c = '-' ∨ c = '.' ∨ c = '/' then '_' else c

/-- envVarReplace is `envVarReplacer.Replace`. -/
def envVarReplace (s : String) : String := String.mk (s.data.map envReplChar)

/-- withEnvPfx is the `WithEnv` constructor's stored prefix:
`strings.ToUpper(prefix) + "_"`, unconditionally. -/
def withEnvPfx (p : String) : String := upperStr p ++ "_"

/-- envLoc is `EnvSource.Loc`: upper-case the key, prepend the stored
prefix when that stored prefix is non-empty, then apply the replacer. -/
def envLoc (storedPfx key : String) : String :=
  let k := upperStr key
  let k2 := if storedPfx = "" then k else storedPfx ++ k
  envVarReplace k2

/-- envGet is `EnvSource.Get` with the process environment passed
explicitly in place of `os.LookupEnv`: an unset variable yields the
ErrMissing sentinel, a set one is split on commas. -/
def envGet (env : String → Option String) (storedPfx key : String) : GetOutcome :=
  match env (envLoc storedPfx key) with
  | none => GetOutcome.missing
  | some v => GetOutcome.found ((splitComma v.data).map String.mk)

/-- JSON is a decoded `encoding/json` value as produced with
`Decoder.UseNumber()`: `num` carries the number's original literal text,
exactly as `json.Number` does, so no float round-trip occurs. -/
inductive JSON where
  | str : String → JSON
  | num : String → JSON
  | bool : Bool → JSON
  | null : JSON
  | arr : List JSON → JSON
  | obj : List (String × JSON) → JSON

/-- stringifyValue is jsonconf's `stringifyValue`: strings pass through,
`json.Number` yields its literal text, booleans go through
`strconv.FormatBool`; everything else (null, object, nested array) is an
error. The Go message interpolates the value and its dynamic type; no
claim depends on that text, so a fixed message stands in for it. -/
def stringifyValue : JSON → Except String String
  | JSON.str s => Except.ok s
  | JSON.num t => Except.ok t
  | JSON.bool b => Except.ok (if b then "true" else "false")
  | _ => Except.error "could not convert value to string"

/-- stringifyList is the array loop inside `stringifySlice`: stringify
each element in order, stopping at the first error. -/
def stringifyList : List JSON → Except String (List String)
  | [] => Except.ok []
  | v :: vs =>
    match stringifyValue v with
    | Except.error e => Except.error e
    | Except.ok s =>
      match stringifyList vs with
      | Except.error e => Except.error e
      | Except.ok ss => Except.ok (s :: ss)

/-- stringifySlice is jsonconf's `stringifySlice`: an array is stringified
element-wise, any other value is stringified alone into a one-element
list. -/
def stringifySlice : JSON → Except String (List String)
  | JSON.arr vals => stringifyList vals
  | v =>
    match stringifyValue v with
    | Except.error e => Except.error e
    | Except.ok s => Except.ok [s]

/-- jsonGet is `JSONSource.Get` in the revised jsonconf (src/unnamed/
part_000), over the decoded object: an absent key yields the ErrMissing
sentinel; a present one is stringified, errors wrapped with
"error parsing JSON config". -/
def jsonGet (m : List (String × JSON)) (key : String) : GetOutcome :=
  match lookupAssoc m key with
  | none => GetOutcome.missing
  | some v =>
    match stringifySlice v with
    | Except.error e => GetOutcome.err ("error parsing JSON config: " ++ e)
    | Except.ok vs => GetOutcome.found vs

/-- jsonGetOld is `JSONSource.Get` as it stands in src/jsonconf.go: no
missing-key check, so an absent key reads the map's zero value (the nil
interface, indistinguishable from decoded JSON null) and is fed straight
to `stringifySlice`. -/
def jsonGetOld (m : List (String × JSON)) (key : String) : GetOutcome :=
  match stringifySlice ((lookupAssoc m key).getD JSON.null) with
  | Except.error e => GetOutcome.err ("error parsing JSON config: " ++ e)
  | Except.ok vs => GetOutcome.found vs

/-- jsonFlagSourceName is `JSONFlagSource.Name`. -/
def jsonFlagSourceName (flagName : String) : String :=
  "JSON configuration file defined by " ++ quoteStr flagName ++ " flag"

/-- jsonFlagWithFlagValue is `JSONFlagSource.WithFlagValue` composed with
the lazy `JSONSource.init` it enables: an empty value is rejected with the
code's message; otherwise the initialized source reads the named file
through `load` on first Get (a load failure surfaces as the Get error,
exactly as the lazy `init` error does in Go). -/
def jsonFlagWithFlagValue (load : String → Except String (List (String × JSON)))
    (value : String) : Except String SourceImpl :=
  if value = "" then Except.error "JSONFlagSource given an empty string"
  else
    Except.ok
      { get := fun key =>
          match load value with
          | Except.error e => GetOutcome.err e
          | Except.ok m => jsonGet m key,
        loc := fun key => fileLoc value key }

/-- initSources is the "Initialize any FlagSources" loop of ParseArgs
(plainconf.go, FlagSource-aware revision): each flag-driven source has its
needed flag looked up (error if undeclared), receives the flag's current
value with the declared default substituted when that value is empty, and
any WithFlagValue error is wrapped with the source's name and the needed
flag's name. On success the list of sweep-ready sources is returned in the
original order. -/
def initSources (flags : List FlagDecl) (cur : String → String) :
    List Src → Except String (List SourceImpl)
  | [] => Except.ok []
  | Src.ordinary s :: rest =>
    match initSources flags cur rest with
    | Except.error e => Except.error e
    | Except.ok ss => Except.ok (s :: ss)
  | Src.flagDriven sname fneeded wfv :: rest =>
    match flags.find? (fun f => f.fname == fneeded) with
    | none =>
      Except.error ("Flag source needed flag " ++ quoteStr fneeded ++ ", but it was not found")
    | some f =>
      match wfv (if cur fneeded = "" then f.defValue else cur fneeded) with
      | Except.error e =>
        Except.error ("cannot initialize source " ++ quoteStr sname ++
          " with value from flag " ++ quoteStr fneeded ++ ": " ++ e)
      | Except.ok s =>
        match initSources flags cur rest with
        | Except.error e => Except.error e
        | Except.ok ss => Except.ok (s :: ss)

/-- applyValues is the inner `for _, individual := range values` loop of
ParseArgs: each value is trimmed and handed to `fs.Set`; a setter error is
wrapped with the flag name and the source's Loc and aborts; after each
successful set the flag is marked found. The returned triple is the list
of setter calls made (the failing one included), the updated found set,
and the error if any. -/
def applyValues (f : FlagDecl) (loc : String) (found : List String) :
    List String → List Ev × List String × Option String
  | [] => ([], found, none)
  | v :: vs =>
    match f.setE (trimStr v) with
    | some verr =>
      ([Ev.set f.fname (trimStr v)], found,
        some ("error setting flag " ++ quoteStr f.fname ++ " from " ++ loc ++ ": " ++ verr))
    | none =>
      let r := applyValues f loc (f.fname :: found) vs
      (Ev.set f.fname (trimStr v) :: r.1, r.2)

/-- resolveFlag is the `for _, source := range sources` loop of ParseArgs
for one visited flag, with `i` the index of the first listed source: the
found set is consulted before every source (stopping the loop once the
flag is found), ErrMissing falls through to the next source, any other Get
error aborts with that error unwrapped, and a found value list is applied
via applyValues. -/
def resolveFlag (f : FlagDecl) :
    List String → Nat → List SourceImpl → List Ev × List String × Option String
  | found, _, [] => ([], found, none)
  | found, i, s :: rest =>
    if f.fname ∈ found then ([], found, none)
    else
      match s.get f.fname with
      | GetOutcome.missing =>
        let r := resolveFlag f found (i + 1) rest
        (Ev.get i f.fname :: r.1, r.2)
      | GetOutcome.err m => ([Ev.get i f.fname], found, some m)
      | GetOutcome.found vs =>
        let a := applyValues f (s.loc f.fname) found vs
        match a.2.2 with
        | some e => (Ev.get i f.fname :: a.1, a.2.1, some e)
        | none =>
          let r := resolveFlag f a.2.1 (i + 1) rest
          (Ev.get i f.fname :: (a.1 ++ r.1), r.2)

/-- sweep is the `fs.VisitAll` pass of ParseArgs over the declared flags
(in the engine's enumeration order), threading the found set; once an
error is recorded every later visit bails out immediately, so the sweep
stops at the first error. -/
def sweep (impls : List SourceImpl) :
    List String → List FlagDecl → List Ev × List String × Option String
  | found, [] => ([], found, none)
  | found, f :: fs =>
    let r := resolveFlag f found 0 impls
    match r.2.2 with
    | some e => (r.1, r.2.1, some e)
    | none =>
      let r2 := sweep impls r.2.1 fs
      (r.1 ++ r2.1, r2.2)

/-- parseArgs is `ParseArgs` after the flag engine has parsed the raw
arguments: `argsFound` is the set of flag names the engine reports as
explicitly set (`fs.Visit`), `cur` gives each flag's current string value
(`Flag.Value.String()`), `flags` the declared flags in enumeration order.
It initializes flag-driven sources, then sweeps; the result is the trace
of Get/Set calls made and the returned error. -/
def parseArgs (argsFound : List String) (cur : String → String)
    (flags : List FlagDecl) (srcs : List Src) : List Ev × Option String :=
  match initSources flags cur srcs with
  | Except.error e => ([], some e)
  | Except.ok impls =>
    ((sweep impls argsFound flags).1, (sweep impls argsFound flags).2.2)

/-- evFlag is the flag name an event concerns. -/
def evFlag : Ev → String
  | Ev.get _ n => n
  | Ev.set n _ => n

/-- setEvents lists the values passed to the flag engine's setter for the
given flag name, in call order. -/
def setEvents (t : List Ev) (n : String) : List String :=
  t.filterMap fun e =>
    match e with
    | Ev.set m v => if m = n then some v else none
    | Ev.get _ _ => none

/-- getIdxs lists the source indices on which Get was called for the given
flag name, in call order. -/
def getIdxs (t : List Ev) (n : String) : List Nat :=
  t.filterMap fun e =>
    match e with
    | Ev.get i m => if m = n then some i else none
    | Ev.set _ _ => none

/-- strHasSubAux decides whether the pattern occurs as a contiguous
sublist of the second argument. -/
def strHasSubAux (sub : List Char) : List Char → Bool
  | [] => sub.isEmpty
  | c :: cs => sub.isPrefixOf (c :: cs) || strHasSubAux sub cs

/-- strHasSub decides whether `sub` occurs as a contiguous substring of
`s` (used to check whether an error message names something). -/
def strHasSub (s sub : String) : Bool :=
  strHasSubAux sub.data s.data

/-
Helper lemmas about the resolution sweep.
-/

theorem replicate_append_cons {α : Type} (n : Nat) (x : α) (l : List α) :
    List.replicate n x ++ x :: l = x :: (List.replicate n x ++ l) := by
  induction n with
  | zero => simp
  | succ n ih => simp [List.replicate_succ, ih]

theorem applyValues_ok (f : FlagDecl) (loc : String) (vs : List String) :
    ∀ found : List String,
      (∀ v ∈ vs, f.setE (trimStr v) = none) →
      applyValues f loc found vs =
        (vs.map (fun v => Ev.set f.fname (trimStr v)),
         List.replicate vs.length f.fname ++ found, none) := by
  induction vs with
  | nil => intro found _; rfl
  | cons v vs ih =>
    intro found h
    have hv : f.setE (trimStr v) = none := h v (by simp)
    have ih' := ih (f.fname :: found) (fun w hw => h w (by simp [hw]))
    simp [applyValues, hv, ih', List.replicate_succ, replicate_append_cons]

theorem applyValues_fail (f : FlagDecl) (loc : String) (vok : List String)
    (vbad : String) (vrest : List String) (verr : String) :
    ∀ found : List String,
      (∀ v ∈ vok, f.setE (trimStr v) = none) →
      f.setE (trimStr vbad) = some verr →
      applyValues f loc found (vok ++ vbad :: vrest) =
        (vok.map (fun v => Ev.set f.fname (trimStr v)) ++ [Ev.set f.fname (trimStr vbad)],
         List.replicate vok.length f.fname ++ found,
         some ("error setting flag " ++ quoteStr f.fname ++ " from " ++ loc ++ ": " ++ verr)) := by
  induction vok with
  | nil =>
    intro found _ hbad
    simp [applyValues, hbad]
  | cons v vs ih =>
    intro found h hbad
    have hv : f.setE (trimStr v) = none := h v (by simp)
    have ih' := ih (f.fname :: found) (fun w hw => h w (by simp [hw])) hbad
    simp [applyValues, hv, ih', List.replicate_succ, replicate_append_cons]

theorem applyValues_events (f : FlagDecl) (loc : String) (vs : List String) :
    ∀ found : List String, ∀ ev ∈ (applyValues f loc found vs).1, evFlag ev = f.fname := by
  induction vs with
  | nil => intro found ev hev; simp [applyValues] at hev
  | cons v vs ih =>
    intro found ev hev
    unfold applyValues at hev
    cases hsv : f.setE (trimStr v) with
    | some verr =>
      rw [hsv] at hev
      simp at hev
      simp [hev, evFlag]
    | none =>
      rw [hsv] at hev
      simp at hev
      rcases hev with h | h
      · simp [h, evFlag]
      · exact ih (f.fname :: found) ev h

theorem applyValues_mono (f : FlagDecl) (loc : String) (vs : List String) :
    ∀ found : List String, ∀ x ∈ found, x ∈ (applyValues f loc found vs).2.1 := by
  induction vs with
  | nil => intro found x hx; simpa [applyValues] using hx
  | cons v vs ih =>
    intro found x hx
    unfold applyValues
    cases hsv : f.setE (trimStr v) with
    | some verr => simpa using hx
    | none =>
      have := ih (f.fname :: found) x (by simp [hx])
      simpa using this

theorem applyValues_found_sub (f : FlagDecl) (loc : String) (vs : List String) :
    ∀ found : List String, ∀ x ∈ (applyValues f loc found vs).2.1,
      x = f.fname ∨ x ∈ found := by
  induction vs with
  | nil => intro found x hx; simp [applyValues] at hx; exact Or.inr hx
  | cons v vs ih =>
    intro found x hx
    unfold applyValues at hx
    cases hsv : f.setE (trimStr v) with
    | some verr =>
      rw [hsv] at hx
      simp at hx
      exact Or.inr hx
    | none =>
      rw [hsv] at hx
      simp at hx
      rcases ih (f.fname :: found) x hx with h | h
      · exact Or.inl h
      · simp at h
        rcases h with h | h
        · exact Or.inl h
        · exact Or.inr h


theorem resolveFlag_nil (f : FlagDecl) (found : List String) (i : Nat) :
    resolveFlag f found i [] = ([], found, none) := rfl

theorem resolveFlag_cons_mem (f : FlagDecl) (found : List String) (i : Nat)
    (s : SourceImpl) (rest : List SourceImpl) (h : f.fname ∈ found) :
    resolveFlag f found i (s :: rest) = ([], found, none) := by
  rw [resolveFlag, if_pos h]

theorem resolveFlag_cons_missing (f : FlagDecl) (found : List String) (i : Nat)
    (s : SourceImpl) (rest : List SourceImpl) (hnf : f.fname ∉ found)
    (hg : s.get f.fname = GetOutcome.missing) :
    resolveFlag f found i (s :: rest) =
      (Ev.get i f.fname :: (resolveFlag f found (i + 1) rest).1,
       (resolveFlag f found (i + 1) rest).2) := by
  rw [resolveFlag, if_neg hnf, hg]

theorem resolveFlag_cons_err (f : FlagDecl) (found : List String) (i : Nat)
    (s : SourceImpl) (rest : List SourceImpl) (m : String) (hnf : f.fname ∉ found)
    (hg : s.get f.fname = GetOutcome.err m) :
    resolveFlag f found i (s :: rest) = ([Ev.get i f.fname], found, some m) := by
  rw [resolveFlag, if_neg hnf, hg]

theorem resolveFlag_cons_got_err (f : FlagDecl) (found : List String) (i : Nat)
    (s : SourceImpl) (rest : List SourceImpl) (vs : List String) (e : String)
    (hnf : f.fname ∉ found) (hg : s.get f.fname = GetOutcome.found vs)
    (hae : (applyValues f (s.loc f.fname) found vs).2.2 = some e) :
    resolveFlag f found i (s :: rest) =
      (Ev.get i f.fname :: (applyValues f (s.loc f.fname) found vs).1,
       (applyValues f (s.loc f.fname) found vs).2.1, some e) := by
  simp only [resolveFlag, if_neg hnf, hg, hae]

theorem resolveFlag_cons_got_ok (f : FlagDecl) (found : List String) (i : Nat)
    (s : SourceImpl) (rest : List SourceImpl) (vs : List String)
    (hnf : f.fname ∉ found) (hg : s.get f.fname = GetOutcome.found vs)
    (hae : (applyValues f (s.loc f.fname) found vs).2.2 = none) :
    resolveFlag f found i (s :: rest) =
      (Ev.get i f.fname ::
         ((applyValues f (s.loc f.fname) found vs).1 ++
           (resolveFlag f (applyValues f (s.loc f.fname) found vs).2.1 (i + 1) rest).1),
       (resolveFlag f (applyValues f (s.loc f.fname) found vs).2.1 (i + 1) rest).2) := by
  simp only [resolveFlag, if_neg hnf, hg, hae]

theorem resolveFlag_found (f : FlagDecl) (found : List String) (i : Nat)
    (ss : List SourceImpl) (h : f.fname ∈ found) :
    resolveFlag f found i ss = ([], found, none) := by
  cases ss with
  | nil => rfl
  | cons s rest => exact resolveFlag_cons_mem f found i s rest h

theorem resolveFlag_skip (f : FlagDecl) (spre : List SourceImpl) :
    ∀ (found : List String) (i : Nat) (rest : List SourceImpl),
      f.fname ∉ found →
      (∀ p ∈ spre, p.get f.fname = GetOutcome.missing ∨ p.get f.fname = GetOutcome.found []) →
      resolveFlag f found i (spre ++ rest) =
        ((List.range' i spre.length).map (fun j => Ev.get j f.fname) ++
           (resolveFlag f found (i + spre.length) rest).1,
         (resolveFlag f found (i + spre.length) rest).2) := by
  induction spre with
  | nil => intro found i rest _ _; simp
  | cons p ps ih =>
    intro found i rest hnf hpre
    have hp := hpre p (by simp)
    have ih' := ih found (i + 1) rest hnf (fun q hq => hpre q (by simp [hq]))
    have step : resolveFlag f found i ((p :: ps) ++ rest) =
        (Ev.get i f.fname :: (resolveFlag f found (i + 1) (ps ++ rest)).1,
         (resolveFlag f found (i + 1) (ps ++ rest)).2) := by
      rcases hp with hp | hp
      · exact resolveFlag_cons_missing f found i p (ps ++ rest) hnf hp
      · have hae : (applyValues f (p.loc f.fname) found []).2.2 = none := rfl
        have := resolveFlag_cons_got_ok f found i p (ps ++ rest) [] hnf hp hae
        simpa [applyValues] using this
    rw [step, ih', List.length_cons, List.range'_succ, List.map_cons, List.cons_append,
      show i + (ps.length + 1) = i + 1 + ps.length from by omega]

theorem resolveFlag_hit (f : FlagDecl) (s : SourceImpl) (post : List SourceImpl)
    (found : List String) (i : Nat) (vs : List String)
    (hnf : f.fname ∉ found) (hget : s.get f.fname = GetOutcome.found vs) (hvs : vs ≠ [])
    (hok : ∀ v ∈ vs, f.setE (trimStr v) = none) :
    resolveFlag f found i (s :: post) =
      (Ev.get i f.fname :: vs.map (fun v => Ev.set f.fname (trimStr v)),
       List.replicate vs.length f.fname ++ found, none) := by
  have hav := applyValues_ok f (s.loc f.fname) vs found hok
  have hae : (applyValues f (s.loc f.fname) found vs).2.2 = none := by rw [hav]
  have hmem : f.fname ∈ (applyValues f (s.loc f.fname) found vs).2.1 := by
    rw [hav]
    apply List.mem_append.2
    left
    exact List.mem_replicate.2 ⟨by simpa using hvs, rfl⟩
  have hstop := resolveFlag_found f _ (i + 1) post hmem
  rw [resolveFlag_cons_got_ok f found i s post vs hnf hget hae, hstop, hav]
  simp

theorem resolveFlag_fail (f : FlagDecl) (s : SourceImpl) (post : List SourceImpl)
    (found : List String) (i : Nat) (vok : List String) (vbad : String)
    (vrest : List String) (verr : String)
    (hnf : f.fname ∉ found) (hget : s.get f.fname = GetOutcome.found (vok ++ vbad :: vrest))
    (hok : ∀ v ∈ vok, f.setE (trimStr v) = none)
    (hbad : f.setE (trimStr vbad) = some verr) :
    resolveFlag f found i (s :: post) =
      (Ev.get i f.fname ::
         (vok.map (fun v => Ev.set f.fname (trimStr v)) ++ [Ev.set f.fname (trimStr vbad)]),
       List.replicate vok.length f.fname ++ found,
       some ("error setting flag " ++ quoteStr f.fname ++ " from " ++ s.loc f.fname ++ ": " ++ verr)) := by
  have hav := applyValues_fail f (s.loc f.fname) vok vbad vrest verr found hok hbad
  have hae : (applyValues f (s.loc f.fname) found (vok ++ vbad :: vrest)).2.2 =
      some ("error setting flag " ++ quoteStr f.fname ++ " from " ++ s.loc f.fname ++ ": " ++ verr) := by
    rw [hav]
  rw [resolveFlag_cons_got_err f found i s post _ _ hnf hget hae, hav]

theorem resolveFlag_events (f : FlagDecl) (ss : List SourceImpl) :
    ∀ (found : List String) (i : Nat), ∀ ev ∈ (resolveFlag f found i ss).1, evFlag ev = f.fname := by
  induction ss with
  | nil => intro found i ev hev; simp [resolveFlag_nil] at hev
  | cons s rest ih =>
    intro found i ev hev
    by_cases hf : f.fname ∈ found
    · rw [resolveFlag_cons_mem f found i s rest hf] at hev
      simp at hev
    · cases hg : s.get f.fname with
      | missing =>
        rw [resolveFlag_cons_missing f found i s rest hf hg] at hev
        simp at hev
        rcases hev with h | h
        · simp [h, evFlag]
        · exact ih found (i + 1) ev h
      | err m =>
        rw [resolveFlag_cons_err f found i s rest m hf hg] at hev
        simp at hev
        simp [hev, evFlag]
      | found vs =>
        cases hae : (applyValues f (s.loc f.fname) found vs).2.2 with
        | some e =>
          rw [resolveFlag_cons_got_err f found i s rest vs e hf hg hae] at hev
          simp at hev
          rcases hev with h | h
          · simp [h, evFlag]
          · exact applyValues_events f (s.loc f.fname) vs found ev h
        | none =>
          rw [resolveFlag_cons_got_ok f found i s rest vs hf hg hae] at hev
          simp at hev
          rcases hev with h | h | h
          · simp [h, evFlag]
          · exact applyValues_events f (s.loc f.fname) vs found ev h
          · exact ih _ (i + 1) ev h

theorem resolveFlag_mono (f : FlagDecl) (ss : List SourceImpl) :
    ∀ (found : List String) (i : Nat), ∀ x ∈ found, x ∈ (resolveFlag f found i ss).2.1 := by
  induction ss with
  | nil => intro found i x hx; simpa [resolveFlag_nil] using hx
  | cons s rest ih =>
    intro found i x hx
    by_cases hf : f.fname ∈ found
    · rw [resolveFlag_cons_mem f found i s rest hf]
      simpa using hx
    · cases hg : s.get f.fname with
      | missing =>
        rw [resolveFlag_cons_missing f found i s rest hf hg]
        exact ih found (i + 1) x hx
      | err m =>
        rw [resolveFlag_cons_err f found i s rest m hf hg]
        simpa using hx
      | found vs =>
        have hxa := applyValues_mono f (s.loc f.fname) vs found x hx
        cases hae : (applyValues f (s.loc f.fname) found vs).2.2 with
        | some e =>
          rw [resolveFlag_cons_got_err f found i s rest vs e hf hg hae]
          simpa using hxa
        | none =>
          rw [resolveFlag_cons_got_ok f found i s rest vs hf hg hae]
          exact ih _ (i + 1) x hxa

theorem resolveFlag_found_sub (f : FlagDecl) (ss : List SourceImpl) :
    ∀ (found : List String) (i : Nat), ∀ x ∈ (resolveFlag f found i ss).2.1,
      x = f.fname ∨ x ∈ found := by
  induction ss with
  | nil => intro found i x hx; simp [resolveFlag_nil] at hx; exact Or.inr hx
  | cons s rest ih =>
    intro found i x hx
    by_cases hf : f.fname ∈ found
    · rw [resolveFlag_cons_mem f found i s rest hf] at hx
      exact Or.inr hx
    · cases hg : s.get f.fname with
      | missing =>
        rw [resolveFlag_cons_missing f found i s rest hf hg] at hx
        exact ih found (i + 1) x hx
      | err m =>
        rw [resolveFlag_cons_err f found i s rest m hf hg] at hx
        exact Or.inr hx
      | found vs =>
        cases hae : (applyValues f (s.loc f.fname) found vs).2.2 with
        | some e =>
          rw [resolveFlag_cons_got_err f found i s rest vs e hf hg hae] at hx
          exact applyValues_found_sub f (s.loc f.fname) vs found x hx
        | none =>
          rw [resolveFlag_cons_got_ok f found i s rest vs hf hg hae] at hx
          rcases ih _ (i + 1) x hx with h | h
          · exact Or.inl h
          · exact applyValues_found_sub f (s.loc f.fname) vs found x h

theorem sweep_nil (impls : List SourceImpl) (found : List String) :
    sweep impls found [] = ([], found, none) := rfl

theorem sweep_cons_err (impls : List SourceImpl) (found : List String)
    (f : FlagDecl) (fs : List FlagDecl) (e : String)
    (h : (resolveFlag f found 0 impls).2.2 = some e) :
    sweep impls found (f :: fs) =
      ((resolveFlag f found 0 impls).1, (resolveFlag f found 0 impls).2.1, some e) := by
  simp only [sweep, h]

theorem sweep_cons_ok (impls : List SourceImpl) (found : List String)
    (f : FlagDecl) (fs : List FlagDecl)
    (h : (resolveFlag f found 0 impls).2.2 = none) :
    sweep impls found (f :: fs) =
      ((resolveFlag f found 0 impls).1 ++ (sweep impls (resolveFlag f found 0 impls).2.1 fs).1,
       (sweep impls (resolveFlag f found 0 impls).2.1 fs).2) := by
  simp only [sweep, h]

theorem sweep_append_ok (impls : List SourceImpl) (as bs : List FlagDecl) :
    ∀ found : List String, (sweep impls found as).2.2 = none →
      sweep impls found (as ++ bs) =
        ((sweep impls found as).1 ++ (sweep impls (sweep impls found as).2.1 bs).1,
         (sweep impls (sweep impls found as).2.1 bs).2) := by
  induction as with
  | nil => intro found _; simp [sweep_nil]
  | cons f fs ih =>
    intro found h
    cases hr : (resolveFlag f found 0 impls).2.2 with
    | some e =>
      exfalso
      rw [sweep_cons_err impls found f fs e hr] at h
      simp at h
    | none =>
      have h' : (sweep impls (resolveFlag f found 0 impls).2.1 fs).2.2 = none := by
        rw [sweep_cons_ok impls found f fs hr] at h
        simpa using h
      rw [List.cons_append, sweep_cons_ok impls found f (fs ++ bs) hr,
          ih _ h', sweep_cons_ok impls found f fs hr]
      simp [List.append_assoc]

theorem sweep_events (impls : List SourceImpl) (fls : List FlagDecl) :
    ∀ found : List String, ∀ ev ∈ (sweep impls found fls).1,
      ∃ g ∈ fls, evFlag ev = g.fname := by
  induction fls with
  | nil => intro found ev hev; simp [sweep_nil] at hev
  | cons f fs ih =>
    intro found ev hev
    cases hr : (resolveFlag f found 0 impls).2.2 with
    | some e =>
      rw [sweep_cons_err impls found f fs e hr] at hev
      exact ⟨f, by simp, resolveFlag_events f impls found 0 ev hev⟩
    | none =>
      rw [sweep_cons_ok impls found f fs hr] at hev
      simp at hev
      rcases hev with h | h
      · exact ⟨f, by simp, resolveFlag_events f impls found 0 ev h⟩
      · rcases ih _ ev h with ⟨g, hg, hgev⟩
        exact ⟨g, by simp [hg], hgev⟩

theorem sweep_found_sub (impls : List SourceImpl) (fls : List FlagDecl) :
    ∀ found : List String, ∀ x ∈ (sweep impls found fls).2.1,
      x ∈ fls.map FlagDecl.fname ∨ x ∈ found := by
  induction fls with
  | nil => intro found x hx; simp [sweep_nil] at hx; exact Or.inr hx
  | cons f fs ih =>
    intro found x hx
    cases hr : (resolveFlag f found 0 impls).2.2 with
    | some e =>
      rw [sweep_cons_err impls found f fs e hr] at hx
      rcases resolveFlag_found_sub f impls found 0 x hx with h | h
      · exact Or.inl (by simp [h])
      · exact Or.inr h
    | none =>
      rw [sweep_cons_ok impls found f fs hr] at hx
      rcases ih _ x hx with h | h
      · exact Or.inl (List.mem_cons_of_mem _ h)
      · rcases resolveFlag_found_sub f impls found 0 x h with h2 | h2
        · exact Or.inl (by simp [h2])
        · exact Or.inr h2

theorem sweep_mono (impls : List SourceImpl) (fls : List FlagDecl) :
    ∀ found : List String, ∀ x ∈ found, x ∈ (sweep impls found fls).2.1 := by
  induction fls with
  | nil => intro found x hx; simpa [sweep_nil] using hx
  | cons f fs ih =>
    intro found x hx
    cases hr : (resolveFlag f found 0 impls).2.2 with
    | some e =>
      rw [sweep_cons_err impls found f fs e hr]
      exact resolveFlag_mono f impls found 0 x hx
    | none =>
      rw [sweep_cons_ok impls found f fs hr]
      exact ih _ x (resolveFlag_mono f impls found 0 x hx)

theorem sweep_no_set_of_found (impls : List SourceImpl) (fls : List FlagDecl) :
    ∀ (found : List String) (n : String), n ∈ found →
      ∀ v : String, Ev.set n v ∉ (sweep impls found fls).1 := by
  induction fls with
  | nil => intro found n _ v h; simp [sweep_nil] at h
  | cons f fs ih =>
    intro found n hn v h
    by_cases hfn : f.fname = n
    · have hr : resolveFlag f found 0 impls = ([], found, none) :=
        resolveFlag_found f found 0 impls (hfn ▸ hn)
      have h0 : (resolveFlag f found 0 impls).2.2 = none := by rw [hr]
      rw [sweep_cons_ok impls found f fs h0, hr] at h
      simp at h
      exact ih found n hn v h
    · cases hr : (resolveFlag f found 0 impls).2.2 with
      | some e =>
        rw [sweep_cons_err impls found f fs e hr] at h
        have hh := resolveFlag_events f impls found 0 (Ev.set n v) h
        simp [evFlag] at hh
        exact hfn hh.symm
      | none =>
        rw [sweep_cons_ok impls found f fs hr] at h
        simp at h
        rcases h with h | h
        · have hh := resolveFlag_events f impls found 0 (Ev.set n v) h
          simp [evFlag] at hh
          exact hfn hh.symm
        · exact ih _ n (resolveFlag_mono f impls found 0 n hn) v h

theorem initSources_ordinary (flags : List FlagDecl) (cur : String → String) :
    ∀ impls : List SourceImpl,
      initSources flags cur (impls.map Src.ordinary) = Except.ok impls := by
  intro impls
  induction impls with
  | nil => rfl
  | cons s rest ih => simp [initSources, ih]

theorem parseArgs_ordinary (argsFound : List String) (cur : String → String)
    (flags : List FlagDecl) (impls : List SourceImpl) :
    parseArgs argsFound cur flags (impls.map Src.ordinary) =
      ((sweep impls argsFound flags).1, (sweep impls argsFound flags).2.2) := by
  simp [parseArgs, initSources_ordinary]

theorem setEvents_append (t1 t2 : List Ev) (n : String) :
    setEvents (t1 ++ t2) n = setEvents t1 n ++ setEvents t2 n := by
  simp [setEvents, List.filterMap_append]

theorem getIdxs_append (t1 t2 : List Ev) (n : String) :
    getIdxs (t1 ++ t2) n = getIdxs t1 n ++ getIdxs t2 n := by
  simp [getIdxs, List.filterMap_append]

theorem setEvents_nil_of_other (t : List Ev) (n : String)
    (h : ∀ ev ∈ t, evFlag ev ≠ n) : setEvents t n = [] := by
  simp only [setEvents]
  rw [List.filterMap_eq_nil_iff]
  intro ev hev
  cases ev with
  | get i m => rfl
  | set m v =>
    have hne := h _ hev
    simp [evFlag] at hne
    simp [hne]

theorem getIdxs_nil_of_other (t : List Ev) (n : String)
    (h : ∀ ev ∈ t, evFlag ev ≠ n) : getIdxs t n = [] := by
  simp only [getIdxs]
  rw [List.filterMap_eq_nil_iff]
  intro ev hev
  cases ev with
  | set m v => rfl
  | get i m =>
    have hne := h _ hev
    simp [evFlag] at hne
    simp [hne]

theorem setEvents_cons_set_self (n v : String) (t : List Ev) :
    setEvents (Ev.set n v :: t) n = v :: setEvents t n := by
  simp [setEvents, List.filterMap_cons]

theorem setEvents_cons_get (n : String) (i : Nat) (m : String) (t : List Ev) :
    setEvents (Ev.get i m :: t) n = setEvents t n := by
  simp [setEvents, List.filterMap_cons]

theorem getIdxs_cons_set (n m v : String) (t : List Ev) :
    getIdxs (Ev.set m v :: t) n = getIdxs t n := by
  simp [getIdxs, List.filterMap_cons]

theorem getIdxs_cons_get_self (n : String) (i : Nat) (t : List Ev) :
    getIdxs (Ev.get i n :: t) n = i :: getIdxs t n := by
  simp [getIdxs, List.filterMap_cons]

theorem setEvents_gets (l : List Nat) (m n : String) :
    setEvents (l.map (fun j => Ev.get j m)) n = [] := by
  induction l with
  | nil => rfl
  | cons j l ih => simp [List.map_cons, setEvents_cons_get, ih]

theorem getIdxs_gets_self (l : List Nat) (n : String) :
    getIdxs (l.map (fun j => Ev.get j n)) n = l := by
  induction l with
  | nil => rfl
  | cons j l ih => simp [List.map_cons, getIdxs_cons_get_self, ih]

theorem setEvents_sets_self (vs : List String) (n : String) (g : String → String) :
    setEvents (vs.map (fun v => Ev.set n (g v))) n = vs.map g := by
  induction vs with
  | nil => rfl
  | cons v vs ih => simp [List.map_cons, setEvents_cons_set_self, ih]

theorem getIdxs_sets (vs : List String) (n : String) (g : String → String) (n' : String) :
    getIdxs (vs.map (fun v => Ev.set n (g v))) n' = [] := by
  induction vs with
  | nil => rfl
  | cons v vs ih => simp [List.map_cons, getIdxs_cons_set, ih]

theorem parseArgs_first_nonempty (argsFound : List String) (cur : String → String)
    (fpre fpost : List FlagDecl) (f : FlagDecl)
    (spre spost : List SourceImpl) (s : SourceImpl) (vs : List String)
    (e0 : List Ev) (fnd1 : List String)
    (hnodup : ((fpre ++ f :: fpost).map FlagDecl.fname).Nodup)
    (hargs : f.fname ∉ argsFound)
    (hsw : sweep (spre ++ s :: spost) argsFound fpre = (e0, fnd1, none))
    (hpre : ∀ p ∈ spre, p.get f.fname = GetOutcome.missing ∨ p.get f.fname = GetOutcome.found [])
    (hs : s.get f.fname = GetOutcome.found vs) (hvs : vs ≠ [])
    (hok : ∀ v ∈ vs, f.setE (trimStr v) = none) :
    setEvents (parseArgs argsFound cur (fpre ++ f :: fpost)
        ((spre ++ s :: spost).map Src.ordinary)).1 f.fname = vs.map trimStr
    ∧ getIdxs (parseArgs argsFound cur (fpre ++ f :: fpost)
        ((spre ++ s :: spost).map Src.ordinary)).1 f.fname = List.range (spre.length + 1) := by
  have hnames := hnodup
  rw [List.map_append, List.map_cons, List.nodup_append] at hnames
  obtain ⟨h1, h2, hdisj⟩ := hnames
  have hf_pre : f.fname ∉ fpre.map FlagDecl.fname := fun hmem => hdisj hmem (by simp)
  have hf_post : f.fname ∉ fpost.map FlagDecl.fname := by
    rw [List.nodup_cons] at h2
    exact h2.1
  have hfnd1 : f.fname ∉ fnd1 := by
    intro hx
    have hx' : f.fname ∈ (sweep (spre ++ s :: spost) argsFound fpre).2.1 := by
      rw [hsw]
      exact hx
    rcases sweep_found_sub (spre ++ s :: spost) fpre argsFound f.fname hx' with h | h
    · exact hf_pre h
    · exact hargs h
  have hswe : (sweep (spre ++ s :: spost) argsFound fpre).2.2 = none := by rw [hsw]
  have hrf : resolveFlag f fnd1 0 (spre ++ s :: spost) =
      ((List.range' 0 spre.length).map (fun j => Ev.get j f.fname) ++
         (Ev.get spre.length f.fname :: vs.map (fun v => Ev.set f.fname (trimStr v))),
       List.replicate vs.length f.fname ++ fnd1, none) := by
    rw [resolveFlag_skip f spre fnd1 0 (s :: spost) hfnd1 hpre, Nat.zero_add,
        resolveFlag_hit f s spost fnd1 spre.length vs hfnd1 hs hvs hok]
  have hrf2 : (resolveFlag f fnd1 0 (spre ++ s :: spost)).2.2 = none := by rw [hrf]
  have htr : (parseArgs argsFound cur (fpre ++ f :: fpost)
      ((spre ++ s :: spost).map Src.ordinary)).1 =
      e0 ++ (((List.range' 0 spre.length).map (fun j => Ev.get j f.fname) ++
         (Ev.get spre.length f.fname :: vs.map (fun v => Ev.set f.fname (trimStr v)))) ++
        (sweep (spre ++ s :: spost) (List.replicate vs.length f.fname ++ fnd1) fpost).1) := by
    rw [parseArgs_ordinary,
        sweep_append_ok (spre ++ s :: spost) fpre (f :: fpost) argsFound hswe, hsw,
        sweep_cons_ok (spre ++ s :: spost) fnd1 f fpost hrf2, hrf]
  have he0 : ∀ ev ∈ e0, evFlag ev ≠ f.fname := by
    intro ev hev
    have hev' : ev ∈ (sweep (spre ++ s :: spost) argsFound fpre).1 := by
      rw [hsw]
      exact hev
    rcases sweep_events (spre ++ s :: spost) fpre argsFound ev hev' with ⟨g, hg, hgev⟩
    rw [hgev]
    intro hc
    exact hf_pre (hc ▸ List.mem_map_of_mem FlagDecl.fname hg)
  have he2 : ∀ ev ∈ (sweep (spre ++ s :: spost)
      (List.replicate vs.length f.fname ++ fnd1) fpost).1, evFlag ev ≠ f.fname := by
    intro ev hev
    rcases sweep_events (spre ++ s :: spost) fpost _ ev hev with ⟨g, hg, hgev⟩
    rw [hgev]
    intro hc
    exact hf_post (hc ▸ List.mem_map_of_mem FlagDecl.fname hg)
  constructor
  · rw [htr, setEvents_append, setEvents_append, setEvents_append,
        setEvents_nil_of_other e0 f.fname he0, setEvents_gets,
        setEvents_cons_get, setEvents_sets_self,
        setEvents_nil_of_other _ f.fname he2]
    simp
  · rw [htr, getIdxs_append, getIdxs_append, getIdxs_append,
        getIdxs_nil_of_other e0 f.fname he0, getIdxs_gets_self,
        getIdxs_cons_get_self, getIdxs_sets,
        getIdxs_nil_of_other _ f.fname he2]
    simp [List.range_succ, List.range_eq_range']

/-
Claim theorems.
-/

/-- C1 counterexample: with a first source whose Get returns a non-missing
but empty value list (the repo's own JSON source on `{"x": []}`) and a
second source (the plain-text source on the line `x v`) holding a value,
the flag `x` is not assigned the value list of the first non-missing
source (the empty list): Get is called on the later source and the value
actually set comes from it. This falsifies the claim that the first source
returning a non-missing result determines the flag's values. -/
theorem C1_counterexample :
    (SourceImpl.mk (jsonGet [("x", JSON.arr [])]) (fileLoc "a.json")).get "x"
        = GetOutcome.found []
    ∧ setEvents (parseArgs [] (fun _ => "")
        [FlagDecl.mk "x" "" (fun _ => none)]
        [Src.ordinary (SourceImpl.mk (jsonGet [("x", JSON.arr [])]) (fileLoc "a.json")),
         Src.ordinary (SourceImpl.mk (plainGet (plainInit ["x v"])) (fileLoc "b.conf"))]).1 "x"
        = ["v"]
    ∧ (["v"] : List String) ≠ []
    ∧ Ev.get 1 "x" ∈ (parseArgs [] (fun _ => "")
        [FlagDecl.mk "x" "" (fun _ => none)]
        [Src.ordinary (SourceImpl.mk (jsonGet [("x", JSON.arr [])]) (fileLoc "a.json")),
         Src.ordinary (SourceImpl.mk (plainGet (plainInit ["x v"])) (fileLoc "b.conf"))]).1 := by
  decide

/-- C1 (amended): for every flag not explicitly set by the parsed
arguments, ParseArgs assigns it the trimmed value(s) of the first source,
in the caller-supplied order, whose Get returns a non-missing result with
at least one value (sources before it answering missing or an empty list),
and Get is called exactly on the sources up to and including that one —
never on any later source once a value has been applied. Hypotheses: the
declared flag names are distinct, the earlier flags sweep without error,
and every value of the winning source is accepted by the setter. -/
theorem C1_amended (argsFound : List String) (cur : String → String)
    (fpre fpost : List FlagDecl) (f : FlagDecl)
    (spre spost : List SourceImpl) (s : SourceImpl) (vs : List String)
    (e0 : List Ev) (fnd1 : List String)
    (hnodup : ((fpre ++ f :: fpost).map FlagDecl.fname).Nodup)
    (hargs : f.fname ∉ argsFound)
    (hsw : sweep (spre ++ s :: spost) argsFound fpre = (e0, fnd1, none))
    (hpre : ∀ p ∈ spre, p.get f.fname = GetOutcome.missing ∨ p.get f.fname = GetOutcome.found [])
    (hs : s.get f.fname = GetOutcome.found vs) (hvs : vs ≠ [])
    (hok : ∀ v ∈ vs, f.setE (trimStr v) = none) :
    setEvents (parseArgs argsFound cur (fpre ++ f :: fpost)
        ((spre ++ s :: spost).map Src.ordinary)).1 f.fname = vs.map trimStr
    ∧ getIdxs (parseArgs argsFound cur (fpre ++ f :: fpost)
        ((spre ++ s :: spost).map Src.ordinary)).1 f.fname = List.range (spre.length + 1) :=
  parseArgs_first_nonempty argsFound cur fpre fpost f spre spost s vs e0 fnd1
    hnodup hargs hsw hpre hs hvs hok

/-- C1 witness: a concrete run with one missing source, then a source
yielding the single value " v ", then a trailing source: the flag is set
to the trimmed "v" and Get is called exactly on sources 0 and 1. -/
theorem C1_witness :
    setEvents (parseArgs [] (fun _ => "")
        [FlagDecl.mk "x" "" (fun _ => none)]
        [Src.ordinary (SourceImpl.mk (fun _ => GetOutcome.missing) (fun _ => "")),
         Src.ordinary (SourceImpl.mk (fun _ => GetOutcome.found [" v "]) (fun k => k)),
         Src.ordinary (SourceImpl.mk (fun _ => GetOutcome.missing) (fun _ => ""))]).1 "x"
      = ["v"]
    ∧ getIdxs (parseArgs [] (fun _ => "")
        [FlagDecl.mk "x" "" (fun _ => none)]
        [Src.ordinary (SourceImpl.mk (fun _ => GetOutcome.missing) (fun _ => "")),
         Src.ordinary (SourceImpl.mk (fun _ => GetOutcome.found [" v "]) (fun k => k)),
         Src.ordinary (SourceImpl.mk (fun _ => GetOutcome.missing) (fun _ => ""))]).1 "x"
      = List.range 2 := by
  have h := C1_amended [] (fun _ => "") [] [] (FlagDecl.mk "x" "" (fun _ => none))
      [SourceImpl.mk (fun _ => GetOutcome.missing) (fun _ => "")]
      [SourceImpl.mk (fun _ => GetOutcome.missing) (fun _ => "")]
      (SourceImpl.mk (fun _ => GetOutcome.found [" v "]) (fun k => k))
      [" v "] [] []
      (by decide) (by decide) rfl
      (by
        intro p hp
        simp only [List.mem_singleton] at hp
        rw [hp]
        exact Or.inl rfl)
      rfl (by decide) (by intro v _; rfl)
  exact ⟨h.1.trans (by decide), h.2⟩

/-- C2: for every flag name the engine reports as explicitly set from the
parsed arguments, ParseArgs never calls the flag engine's setter for that
flag, whatever sources are supplied and in whatever order (the trace
contains no Set event for it, so its argument-supplied value is
unchanged after resolution; the setter is the only channel through which
ParseArgs writes flag values). -/
theorem C2_args_win (argsFound : List String) (cur : String → String)
    (flags : List FlagDecl) (srcs : List Src) (n : String) (hn : n ∈ argsFound) :
    ∀ v : String, Ev.set n v ∉ (parseArgs argsFound cur flags srcs).1 := by
  intro v h
  unfold parseArgs at h
  cases hi : initSources flags cur srcs with
  | error e =>
    rw [hi] at h
    simp at h
  | ok impls =>
    rw [hi] at h
    simp at h
    exact sweep_no_set_of_found impls flags argsFound n hn v h

/-- C2 witness: with flag `x` explicitly set from the arguments, a source
holding a value for `x` never gets its value applied. -/
theorem C2_witness :
    Ev.set "x" "v" ∉ (parseArgs ["x"] (fun _ => "")
      [FlagDecl.mk "x" "" (fun _ => none)]
      [Src.ordinary (SourceImpl.mk (fun _ => GetOutcome.found ["v"]) (fun k => k))]).1 :=
  C2_args_win ["x"] (fun _ => "")
    [FlagDecl.mk "x" "" (fun _ => none)]
    [Src.ordinary (SourceImpl.mk (fun _ => GetOutcome.found ["v"]) (fun k => k))]
    "x" (by decide) "v"

/-- C3 counterexample: when a flag-driven source needs the undeclared flag
"config", ParseArgs returns the error message
`Flag source needed flag "config", but it was not found` with no Get call
made; the message contains the missing flag's name but does not contain
the source's Name() (`JSON configuration file defined by "config" flag`),
so the claim that the error names both the source and the flag is false. -/
theorem C3_counterexample :
    parseArgs [] (fun _ => "8080") [FlagDecl.mk "port" "8080" (fun _ => none)]
      [Src.flagDriven (jsonFlagSourceName "config") "config"
        (jsonFlagWithFlagValue (fun _ => Except.error "no file"))] =
      ([], some "Flag source needed flag \"config\", but it was not found")
    ∧ strHasSub "Flag source needed flag \"config\", but it was not found" "config" = true
    ∧ strHasSub "Flag source needed flag \"config\", but it was not found"
        (jsonFlagSourceName "config") = false := by
  decide

/-- C3 (amended): if a supplied source implements the flag-driven contract
and its needed flag is not declared in the flag engine, ParseArgs returns
an error whose message names the missing flag (but identifies the source
only generically, not by its Name), and it does so before any Get call is
made on any source: the returned trace is empty. Stated for a flag-driven
source preceded by any ordinary sources. -/
theorem C3_amended (argsFound : List String) (cur : String → String)
    (flags : List FlagDecl) (pre : List SourceImpl) (sname fneeded : String)
    (wfv : String → Except String SourceImpl) (post : List Src)
    (hnone : flags.find? (fun g => g.fname == fneeded) = none) :
    parseArgs argsFound cur flags
        (pre.map Src.ordinary ++ Src.flagDriven sname fneeded wfv :: post) =
      ([], some ("Flag source needed flag " ++ quoteStr fneeded ++ ", but it was not found")) := by
  have hinit : initSources flags cur
      (pre.map Src.ordinary ++ Src.flagDriven sname fneeded wfv :: post) =
      Except.error ("Flag source needed flag " ++ quoteStr fneeded ++ ", but it was not found") := by
    induction pre with
    | nil => simp [initSources, hnone]
    | cons s rest ih => simp [initSources, ih]
  simp [parseArgs, hinit]

/-- C3 witness: a flag-driven source needing the undeclared flag "conf",
behind one ordinary source, aborts resolution with the missing-flag error
and an empty trace. -/
theorem C3_witness :
    parseArgs [] (fun _ => "") []
      [Src.ordinary (SourceImpl.mk (fun _ => GetOutcome.found ["v"]) (fun k => k)),
       Src.flagDriven "my source" "conf" (jsonFlagWithFlagValue (fun _ => Except.error "x"))] =
      ([], some "Flag source needed flag \"conf\", but it was not found") := by
  have h := C3_amended [] (fun _ => "") []
    [SourceImpl.mk (fun _ => GetOutcome.found ["v"]) (fun k => k)]
    "my source" "conf" (jsonFlagWithFlagValue (fun _ => Except.error "x")) [] rfl
  exact h.trans (by decide)

/-- C4: the current sources return the ErrMissing sentinel for absent
keys — PlainSource.Get on a key absent from the parsed map, the revised
JSONSource.Get (src/unnamed/part_000) on a key absent from the decoded
object, and EnvSource.Get on an unset variable — which is what lets the
resolver fall through to the next source. The JSONSource.Get revision in
src/jsonconf.go, however, has no missing-key check: an absent key reads
the map's nil zero value and produces a generic wrapped stringify error,
not the sentinel, so resolution would abort instead of falling through. -/
theorem C4_missing_sentinel :
    (∀ (m : List (String × List String)) (key : String),
        lookupAssoc m key = none → plainGet m key = GetOutcome.missing)
    ∧ (∀ (m : List (String × JSON)) (key : String),
        lookupAssoc m key = none → jsonGet m key = GetOutcome.missing)
    ∧ (∀ (env : String → Option String) (pfx key : String),
        env (envLoc pfx key) = none → envGet env pfx key = GetOutcome.missing)
    ∧ jsonGetOld [] "x" =
        GetOutcome.err "error parsing JSON config: could not convert value to string"
    ∧ jsonGetOld [] "x" ≠ GetOutcome.missing := by
  refine ⟨?_, ?_, ?_, by decide, by decide⟩
  · intro m key h
    simp [plainGet, h]
  · intro m key h
    simp [jsonGet, h]
  · intro env pfx key h
    simp [envGet, h]

/-- C4 witness: concrete absent keys yield the sentinel for the three
current sources, while the jsonconf.go revision yields a non-missing
error. -/
theorem C4_witness :
    plainGet (plainInit ["a b"]) "zz" = GetOutcome.missing
    ∧ jsonGet [("a", JSON.str "b")] "zz" = GetOutcome.missing
    ∧ envGet (fun _ => none) (withEnvPfx "P") "zz" = GetOutcome.missing
    ∧ jsonGetOld [] "x" ≠ GetOutcome.missing :=
  ⟨C4_missing_sentinel.1 _ _ (by decide),
   C4_missing_sentinel.2.1 _ _ rfl,
   C4_missing_sentinel.2.2.1 _ _ _ rfl,
   C4_missing_sentinel.2.2.2.2⟩

/-- C5 counterexample: the plain-text parser splits only at a space
character, not at an arbitrary whitespace run: the line "debug\ttrue"
(tab-separated) is kept whole as the key `debug\ttrue` with the implicit
value ["true"], rather than being split into key `debug` and value
["true"]. -/
theorem C5_counterexample :
    parsePlainLine "debug\ttrue" = some ("debug\ttrue", ["true"])
    ∧ parsePlainLine "debug\ttrue" ≠ some ("debug", ["true"]) := by
  decide

/-- C5 (amended): the plain-text source splits every non-empty,
non-comment line at the first space character (not at an arbitrary
whitespace run) into key and remainder: "debug" alone yields
debug -> ["true"], "refresh 30s # override" yields refresh -> ["30s"]
(inline " #" comment stripped), "tags a,b,c" yields tags ->
["a","b","c"], and empty, all-blank or '#'-prefixed lines contribute no
entries. -/
theorem C5_amended :
    parsePlainLine "debug" = some ("debug", ["true"])
    ∧ parsePlainLine "refresh 30s # override" = some ("refresh", ["30s"])
    ∧ parsePlainLine "tags a,b,c" = some ("tags", ["a", "b", "c"])
    ∧ parsePlainLine "" = none
    ∧ parsePlainLine "   " = none
    ∧ parsePlainLine "# comment" = none
    ∧ plainGet (plainInit ["# top", "", "debug", "refresh 30s # override", "tags a,b,c"]) "debug"
        = GetOutcome.found ["true"]
    ∧ plainGet (plainInit ["# top", "", "debug", "refresh 30s # override", "tags a,b,c"]) "refresh"
        = GetOutcome.found ["30s"]
    ∧ plainGet (plainInit ["# top", "", "debug", "refresh 30s # override", "tags a,b,c"]) "tags"
        = GetOutcome.found ["a", "b", "c"]
    ∧ plainGet (plainInit ["# top", "", "debug", "refresh 30s # override", "tags a,b,c"]) "top"
        = GetOutcome.missing := by
  decide

/-- C6: with prefix MY_PROGRAM and key listen-addr the environment source
looks up MY_PROGRAM_LISTEN_ADDR; a comma-separated value splits into
multiple results; an unset variable yields the missing sentinel. The
claim's "trailing '_' added only when the prefix is non-empty" is however
contradicted by the code: WithEnv appends "_" to the prefix
unconditionally, so the stored prefix is never empty and WithEnv("")
makes Get look up "_DEBUG" for key "debug" instead of "DEBUG" (and the
empty-prefix branch of EnvSource.Name is unreachable). -/
theorem C6_env_naming :
    envLoc (withEnvPfx "MY_PROGRAM") "listen-addr" = "MY_PROGRAM_LISTEN_ADDR"
    ∧ envGet (fun k => if k = "MY_PROGRAM_LISTEN_ADDR" then some "a,b" else none)
        (withEnvPfx "MY_PROGRAM") "listen-addr" = GetOutcome.found ["a", "b"]
    ∧ envGet (fun k => if k = "MY_PROGRAM_LISTEN_ADDR" then some "a,b" else none)
        (withEnvPfx "MY_PROGRAM") "other" = GetOutcome.missing
    ∧ envLoc (withEnvPfx "") "debug" = "_DEBUG"
    ∧ ("_DEBUG" : String) ≠ "DEBUG" := by
  decide

/-- C7: the JSON source stringifies a string value verbatim, a number in
its original literal text (json.Number under UseNumber, so {"port":8080}
yields ["8080"] and not ["8080.0"]), a boolean through FormatBool, and an
array of scalars element-wise in order; JSON null, an object, or a
non-scalar array element produce the wrapped fatal (non-missing)
stringify error. -/
theorem C7_json_stringify :
    (∀ (m : List (String × JSON)) (k s : String),
        lookupAssoc m k = some (JSON.str s) → jsonGet m k = GetOutcome.found [s])
    ∧ (∀ (m : List (String × JSON)) (k t : String),
        lookupAssoc m k = some (JSON.num t) → jsonGet m k = GetOutcome.found [t])
    ∧ (∀ (m : List (String × JSON)) (k : String) (b : Bool),
        lookupAssoc m k = some (JSON.bool b) →
          jsonGet m k = GetOutcome.found [if b then "true" else "false"])
    ∧ jsonGet [("tags", JSON.arr [JSON.str "a", JSON.str "b"])] "tags"
        = GetOutcome.found ["a", "b"]
    ∧ jsonGet [("port", JSON.num "8080")] "port" = GetOutcome.found ["8080"]
    ∧ GetOutcome.found ["8080"] ≠ GetOutcome.found ["8080.0"]
    ∧ (∀ (m : List (String × JSON)) (k : String),
        lookupAssoc m k = some JSON.null →
          jsonGet m k =
            GetOutcome.err "error parsing JSON config: could not convert value to string")
    ∧ (∀ (m : List (String × JSON)) (k : String) (o : List (String × JSON)),
        lookupAssoc m k = some (JSON.obj o) →
          jsonGet m k =
            GetOutcome.err "error parsing JSON config: could not convert value to string")
    ∧ jsonGet [("x", JSON.arr [JSON.arr []])] "x" =
        GetOutcome.err "error parsing JSON config: could not convert value to string" := by
  refine ⟨?_, ?_, ?_, by decide, by decide, by decide, ?_, ?_, by decide⟩
  · intro m k s h
    simp [jsonGet, h, stringifySlice, stringifyValue]
  · intro m k t h
    simp [jsonGet, h, stringifySlice, stringifyValue]
  · intro m k b h
    cases b <;> simp [jsonGet, h, stringifySlice, stringifyValue]
  · intro m k h
    simp [jsonGet, h, stringifySlice, stringifyValue]
  · intro m k o h
    simp [jsonGet, h, stringifySlice, stringifyValue]

/-- C7 witness: concrete lookups for each scalar shape and the null and
object error cases. -/
theorem C7_witness :
    jsonGet [("refresh", JSON.str "30s")] "refresh" = GetOutcome.found ["30s"]
    ∧ jsonGet [("port2", JSON.num "8080")] "port2" = GetOutcome.found ["8080"]
    ∧ jsonGet [("debug", JSON.bool true)] "debug" = GetOutcome.found ["true"]
    ∧ jsonGet [("n", JSON.null)] "n" =
        GetOutcome.err "error parsing JSON config: could not convert value to string"
    ∧ jsonGet [("o", JSON.obj [])] "o" =
        GetOutcome.err "error parsing JSON config: could not convert value to string" :=
  ⟨C7_json_stringify.1 _ _ _ rfl,
   C7_json_stringify.2.1 _ _ _ rfl,
   C7_json_stringify.2.2.1 _ _ true rfl,
   C7_json_stringify.2.2.2.2.2.2.1 _ _ rfl,
   C7_json_stringify.2.2.2.2.2.2.2.1 _ _ [] rfl⟩

/-- C8: for a flag-driven source whose needed flag is declared, ParseArgs
hands WithFlagValue the flag's current string value with the declared
default substituted when the current value is empty: if that call errors,
resolution aborts with the error wrapped in a message carrying the
source's name and the needed flag's name; if it succeeds, resolution
proceeds exactly as with the initialized source in that position. The
JSONFlagSource's WithFlagValue rejects an empty value with a descriptive
error. -/
theorem C8_flagsource_init (argsFound : List String) (cur : String → String)
    (flags : List FlagDecl) (sname fneeded : String)
    (wfv : String → Except String SourceImpl) (rest : List Src) (f : FlagDecl)
    (hfind : flags.find? (fun g => g.fname == fneeded) = some f) :
    (∀ e : String,
       wfv (if cur fneeded = "" then f.defValue else cur fneeded) = Except.error e →
       parseArgs argsFound cur flags (Src.flagDriven sname fneeded wfv :: rest) =
         ([], some ("cannot initialize source " ++ quoteStr sname ++
           " with value from flag " ++ quoteStr fneeded ++ ": " ++ e)))
    ∧ (∀ impl : SourceImpl,
       wfv (if cur fneeded = "" then f.defValue else cur fneeded) = Except.ok impl →
       parseArgs argsFound cur flags (Src.flagDriven sname fneeded wfv :: rest) =
         parseArgs argsFound cur flags (Src.ordinary impl :: rest))
    ∧ (∀ load : String → Except String (List (String × JSON)),
       jsonFlagWithFlagValue load "" = Except.error "JSONFlagSource given an empty string") := by
  refine ⟨?_, ?_, fun load => rfl⟩
  · intro e he
    simp [parseArgs, initSources, hfind, he]
  · intro impl hi
    simp [parseArgs, initSources, hfind, hi]

/-- C8 witness: flag "config" is declared with default "def.json" and an
empty current value, so the flag-driven source receives "def.json"; with
an initializer that echoes its argument as an error, the returned message
carries the source name, the flag name, and the substituted default. -/
theorem C8_witness :
    parseArgs [] (fun _ => "")
        [FlagDecl.mk "config" "def.json" (fun _ => none)]
        [Src.flagDriven "my json source" "config" (fun v => Except.error v)] =
      ([], some "cannot initialize source \"my json source\" with value from flag \"config\": def.json")
    ∧ jsonFlagWithFlagValue (fun _ => Except.ok []) "" =
        Except.error "JSONFlagSource given an empty string" := by
  have h := C8_flagsource_init [] (fun _ => "")
    [FlagDecl.mk "config" "def.json" (fun _ => none)]
    "my json source" "config" (fun v => Except.error v) []
    (FlagDecl.mk "config" "def.json" (fun _ => none)) rfl
  exact ⟨(h.1 "def.json" rfl).trans (by decide), h.2.2 _⟩

/-- C9: when the sources before `s` answer missing (or an empty list) for
flag `f`, `s` returns the values `vok ++ vbad :: vrest`, every value of
`vok` is accepted by the setter and `vbad` is rejected with `verr`,
ParseArgs returns exactly the trace of the earlier flags, the Gets up to
`s`, the successful Set calls for `vok` and the failing Set call for
`vbad` — nothing more: no value of `vrest` is applied, no later source or
flag is consulted, and the earlier Set calls stay in the trace (no
rollback) — together with the error wrapped with the flag name and the
source's Loc string. -/
theorem C9_set_failure_aborts (argsFound : List String) (cur : String → String)
    (fpre fpost : List FlagDecl) (f : FlagDecl)
    (spre spost : List SourceImpl) (s : SourceImpl)
    (vok : List String) (vbad : String) (vrest : List String) (verr : String)
    (e0 : List Ev) (fnd1 : List String)
    (hnodup : ((fpre ++ f :: fpost).map FlagDecl.fname).Nodup)
    (hargs : f.fname ∉ argsFound)
    (hsw : sweep (spre ++ s :: spost) argsFound fpre = (e0, fnd1, none))
    (hpre : ∀ p ∈ spre, p.get f.fname = GetOutcome.missing ∨ p.get f.fname = GetOutcome.found [])
    (hs : s.get f.fname = GetOutcome.found (vok ++ vbad :: vrest))
    (hok : ∀ v ∈ vok, f.setE (trimStr v) = none)
    (hbad : f.setE (trimStr vbad) = some verr) :
    parseArgs argsFound cur (fpre ++ f :: fpost) ((spre ++ s :: spost).map Src.ordinary) =
      (e0 ++ ((List.range' 0 spre.length).map (fun j => Ev.get j f.fname) ++
         (Ev.get spre.length f.fname ::
           (vok.map (fun v => Ev.set f.fname (trimStr v)) ++ [Ev.set f.fname (trimStr vbad)]))),
       some ("error setting flag " ++ quoteStr f.fname ++ " from " ++ s.loc f.fname ++ ": " ++ verr)) := by
  have hnames := hnodup
  rw [List.map_append, List.map_cons, List.nodup_append] at hnames
  obtain ⟨h1, h2, hdisj⟩ := hnames
  have hf_pre : f.fname ∉ fpre.map FlagDecl.fname := fun hmem => hdisj hmem (by simp)
  have hfnd1 : f.fname ∉ fnd1 := by
    intro hx
    have hx' : f.fname ∈ (sweep (spre ++ s :: spost) argsFound fpre).2.1 := by
      rw [hsw]
      exact hx
    rcases sweep_found_sub (spre ++ s :: spost) fpre argsFound f.fname hx' with h | h
    · exact hf_pre h
    · exact hargs h
  have hswe : (sweep (spre ++ s :: spost) argsFound fpre).2.2 = none := by rw [hsw]
  have hrf : resolveFlag f fnd1 0 (spre ++ s :: spost) =
      ((List.range' 0 spre.length).map (fun j => Ev.get j f.fname) ++
         (Ev.get spre.length f.fname ::
           (vok.map (fun v => Ev.set f.fname (trimStr v)) ++ [Ev.set f.fname (trimStr vbad)])),
       List.replicate vok.length f.fname ++ fnd1,
       some ("error setting flag " ++ quoteStr f.fname ++ " from " ++ s.loc f.fname ++ ": " ++ verr)) := by
    rw [resolveFlag_skip f spre fnd1 0 (s :: spost) hfnd1 hpre, Nat.zero_add,
        resolveFlag_fail f s spost fnd1 spre.length vok vbad vrest verr hfnd1 hs hok hbad]
  have hrf2 : (resolveFlag f fnd1 0 (spre ++ s :: spost)).2.2 =
      some ("error setting flag " ++ quoteStr f.fname ++ " from " ++ s.loc f.fname ++ ": " ++ verr) := by
    rw [hrf]
  rw [parseArgs_ordinary,
      sweep_append_ok (spre ++ s :: spost) fpre (f :: fpost) argsFound hswe, hsw,
      sweep_cons_err (spre ++ s :: spost) fnd1 f fpost _ hrf2, hrf]

/-- C9 witness: a source returns ["ok", "bad", "never"]; "ok" is applied,
"bad" is rejected by the setter, and the run ends at that failing Set
with the wrapped error — "never" is not applied and the trailing source
is not consulted. -/
theorem C9_witness :
    parseArgs [] (fun _ => "")
        [FlagDecl.mk "x" "" (fun v => if v = "bad" then some "boom" else none)]
        [Src.ordinary (SourceImpl.mk
           (fun _ => GetOutcome.found ["ok", "bad", "never"]) (fileLoc "c.conf")),
         Src.ordinary (SourceImpl.mk (fun _ => GetOutcome.found ["later"]) (fun k => k))] =
      ([Ev.get 0 "x", Ev.set "x" "ok", Ev.set "x" "bad"],
       some "error setting flag \"x\" from c.conf, key \"x\": boom") := by
  have h := C9_set_failure_aborts [] (fun _ => "") [] []
    (FlagDecl.mk "x" "" (fun v => if v = "bad" then some "boom" else none))
    []
    [SourceImpl.mk (fun _ => GetOutcome.found ["later"]) (fun k => k)]
    (SourceImpl.mk (fun _ => GetOutcome.found ["ok", "bad", "never"]) (fileLoc "c.conf"))
    ["ok"] "bad" ["never"] "boom" [] []
    (by decide) (by decide) rfl
    (by intro p hp; simp at hp)
    rfl (by decide) (by decide)
  exact h.trans (by decide)

/-- C10: if a source's Get for a flag returns success with an empty value
list, ParseArgs performs no setter call for that flag on its account and
queries the next source in order, which can still resolve the flag: the
Set calls for the flag are exactly the trimmed values of the later
non-empty source, and Get is called on the empty-result source (index
|spre|) and on the next source (index |spre|+1). -/
theorem C10_empty_result_falls_through (argsFound : List String) (cur : String → String)
    (fpre fpost : List FlagDecl) (f : FlagDecl)
    (spre spost : List SourceImpl) (semp s' : SourceImpl) (vs : List String)
    (e0 : List Ev) (fnd1 : List String)
    (hnodup : ((fpre ++ f :: fpost).map FlagDecl.fname).Nodup)
    (hargs : f.fname ∉ argsFound)
    (hsw : sweep (spre ++ semp :: s' :: spost) argsFound fpre = (e0, fnd1, none))
    (hpre : ∀ p ∈ spre, p.get f.fname = GetOutcome.missing ∨ p.get f.fname = GetOutcome.found [])
    (hsemp : semp.get f.fname = GetOutcome.found [])
    (hs : s'.get f.fname = GetOutcome.found vs) (hvs : vs ≠ [])
    (hok : ∀ v ∈ vs, f.setE (trimStr v) = none) :
    setEvents (parseArgs argsFound cur (fpre ++ f :: fpost)
        ((spre ++ semp :: s' :: spost).map Src.ordinary)).1 f.fname = vs.map trimStr
    ∧ getIdxs (parseArgs argsFound cur (fpre ++ f :: fpost)
        ((spre ++ semp :: s' :: spost).map Src.ordinary)).1 f.fname
      = List.range (spre.length + 2) := by
  have hassoc : spre ++ semp :: s' :: spost = (spre ++ [semp]) ++ s' :: spost := by simp
  have hpre' : ∀ p ∈ spre ++ [semp],
      p.get f.fname = GetOutcome.missing ∨ p.get f.fname = GetOutcome.found [] := by
    intro p hp
    rcases List.mem_append.1 hp with h | h
    · exact hpre p h
    · simp only [List.mem_singleton] at h
      rw [h]
      exact Or.inr hsemp
  have h := parseArgs_first_nonempty argsFound cur fpre fpost f
    (spre ++ [semp]) spost s' vs e0 fnd1
    hnodup hargs (by rw [← hassoc]; exact hsw) hpre' hs hvs hok
  rw [hassoc]
  have hlen : (spre ++ [semp]).length = spre.length + 1 := by simp
  refine ⟨h.1, ?_⟩
  have h2 := h.2
  rw [hlen] at h2
  exact h2

/-- C10 witness: with a first source answering an empty list and a second
holding "v", flag x is set to "v" and both sources are queried. -/
theorem C10_witness :
    setEvents (parseArgs [] (fun _ => "")
        [FlagDecl.mk "x" "" (fun _ => none)]
        [Src.ordinary (SourceImpl.mk (fun _ => GetOutcome.found []) (fun k => k)),
         Src.ordinary (SourceImpl.mk (fun _ => GetOutcome.found ["v"]) (fun k => k))]).1 "x"
      = ["v"]
    ∧ getIdxs (parseArgs [] (fun _ => "")
        [FlagDecl.mk "x" "" (fun _ => none)]
        [Src.ordinary (SourceImpl.mk (fun _ => GetOutcome.found []) (fun k => k)),
         Src.ordinary (SourceImpl.mk (fun _ => GetOutcome.found ["v"]) (fun k => k))]).1 "x"
      = List.range 2 := by
  have h := C10_empty_result_falls_through [] (fun _ => "") [] []
    (FlagDecl.mk "x" "" (fun _ => none))
    [] []
    (SourceImpl.mk (fun _ => GetOutcome.found []) (fun k => k))
    (SourceImpl.mk (fun _ => GetOutcome.found ["v"]) (fun k => k))
    ["v"] [] []
    (by decide) (by decide) rfl
    (by intro p hp; simp at hp)
    rfl rfl (by decide) (by intro v _; rfl)
  exact ⟨h.1.trans (by decide), h.2⟩
